import Mathlib

/-!
Verification of the google-pronouncer command-line interface
(`google_pronouncer/cli.py`) against its specification.

The CLI module is embedded shallowly: argument parsing becomes a total
function on a record of raw flags, the per-word download loop becomes a
structural recursion over the word list, and Python exceptions become
`Except` values.  The downloader object (`GooglePronunciationDownloader`)
is not part of the embedded source; its observable behaviour is abstracted
as a record of functions, and the parts of the cache layer that the
specification describes but whose source is absent are modelled from the
specification text (each such definition is marked in its doc comment).
-/

namespace GooglePronouncer

/-- The accent enumeration (`AccentType` in the downloader module):
the two supported accents, British and American. -/
inductive AccentType
  | gb
  | us
deriving DecidableEq

/-- The `AccentType(accent)` constructor applied to a string: succeeds
exactly on the strings "gb" and "us", and raises `ValueError` (here:
`none`) on anything else. -/
def AccentType.ofString : String → Option AccentType
  | "gb" => some AccentType.gb
  | "us" => some AccentType.us
  | _ => none

/-- The `DownloadConfig` record as constructed in `cli.main` (lines 157-162). -/
structure DownloadConfig where
  output_dir : String
  timeout : Int
  use_cache : Bool
  force_download : Bool
deriving DecidableEq

/-- Python exceptions that the downloader operations can raise, as the
CLI distinguishes them: `DownloadError` and `CacheError` are caught by
the first `except` clause of `process_words`, everything else by the
second. -/
inductive PyExc
  | downloadError (msg : String)
  | cacheError (msg : String)
  | other (msg : String)
deriving DecidableEq

/-- Observable behaviour of one constructed
`GooglePronunciationDownloader` object: each method the CLI calls,
with exceptions as `Except.error`.  `get_cache_info` with a word and
with no argument both return a dict (modelled as an association list
from word to a rendered JSON string); `clear_cache` returns nothing
or raises. -/
structure Downloader where
  download_all_accents : String → Except PyExc (List String)
  download_pronunciation : String → AccentType → Except PyExc (Option String)
  get_cache_info_word : String → List (String × String)
  get_cache_info_all : List (String × String)
  clear_cache_word : String → Except PyExc Unit
  clear_cache_all : Except PyExc Unit

/-- The behaviour of the environment across one CLI invocation.  The
downloader constructor performs filesystem work, and the CLI constructs
a downloader twice: once in `main` (line 164) and once inside
`process_words` (line 92); the outcome of each call is modelled
independently, since the constructor's effects are not pure. -/
structure Behaviour where
  constructMain : DownloadConfig → Except String Downloader
  constructProcess : DownloadConfig → Except String Downloader

/-- The body of the per-word `try` block of `process_words`
(lines 97-101): dispatch on the accent string, returning the list of
downloaded paths or the raised exception.  For a non-"all" accent the
`AccentType(accent)` conversion happens here; an invalid string raises
`ValueError`, modelled as `PyExc.other`. -/
def downloadWord (d : Downloader) (accent : String) (word : String) :
    Except PyExc (List String) :=
  if accent = "all" then d.download_all_accents word
  else
    match AccentType.ofString accent with
    | some a =>
      match d.download_pronunciation word a with
      | Except.ok (some p) => Except.ok [p]
      | Except.ok none => Except.ok []
      | Except.error e => Except.error e
    | none => Except.error (PyExc.other ("invalid accent " ++ accent))

/-- One iteration of the `for word in words` loop of `process_words`
(lines 95-112): returns whether the word counted as a success together
with the error messages logged for it.  Every exception is caught here;
an empty path list is logged as `No pronunciations downloaded`. -/
def wordStep (d : Downloader) (accent : String) (word : String) :
    Bool × List String :=
  match downloadWord d accent word with
  | Except.ok paths =>
    if paths.isEmpty then
      (false, ["No pronunciations downloaded for " ++ word])
    else (true, [])
  | Except.error (PyExc.downloadError m) =>
    (false, ["Error processing " ++ word ++ ": " ++ m])
  | Except.error (PyExc.cacheError m) =>
    (false, ["Error processing " ++ word ++ ": " ++ m])
  | Except.error (PyExc.other m) =>
    (false, ["Unexpected error processing " ++ word ++ ": " ++ m])

/-- Whether a word produced at least one pronunciation file: the
downloader returned a non-empty list of paths (raising counts as
producing nothing). -/
def producedFile (d : Downloader) (accent : String) (word : String) : Bool :=
  match downloadWord d accent word with
  | Except.ok paths => !paths.isEmpty
  | Except.error _ => false

/-- The trace of the loop of `process_words`: each word paired with the
result of its iteration, in order. -/
def wordTrace (d : Downloader) (accent : String) (words : List String) :
    List (String × Bool × List String) :=
  words.map (fun w => (w, wordStep d accent w))

/-- All error messages logged by the loop of `process_words`, in order. -/
def logsOf (d : Downloader) (accent : String) : List String → List String
  | [] => []
  | w :: ws => (wordStep d accent w).2 ++ logsOf d accent ws

/-- The exit code computed by `process_words` (lines 93-114) once the
downloader has been constructed: `success` starts `True`, is cleared by
any failed word, and the function returns `0 if success else 1`. -/
def run_process_words (d : Downloader) (words : List String)
    (accent : String) : Nat :=
  if words.foldl (fun s w => s && (wordStep d accent w).1) true then 0 else 1

/-- The function `process_words(words, config, accent)` (lines 90-114): constructs a
downloader from `config`; an exception from the constructor escapes the
function (it is outside the loop's `try`).  Returns the exit code and
the logged error messages. -/
def process_words (b : Behaviour) (words : List String)
    (config : DownloadConfig) (accent : String) :
    Except String (Nat × List String) :=
  match b.constructProcess config with
  | Except.error e => Except.error e
  | Except.ok d =>
    Except.ok (run_process_words d words accent, logsOf d accent words)

/-- The subcommands of the CLI (the dest of the subparsers). -/
inductive Command
  | download
  | cacheInfo
  | clearCache
deriving DecidableEq

/-- The parsed argument namespace, as `parse_args` returns it. -/
structure Args where
  command : Option Command
  words : List String
  accent : String
  output_dir : String
  timeout : Int
  verbose : Bool
  no_cache : Bool
  force_download : Bool

/-- A raw command line, before parsing: which subcommand was named,
the positional words, and each option either given (`some`) or
omitted (`none`); store-true flags are present or absent. -/
structure RawInvocation where
  command : Option Command
  words : List String
  accentArg : Option String
  outputDirArg : Option String
  timeoutArg : Option Int
  verboseFlag : Bool
  noCacheFlag : Bool
  forceFlag : Bool

/-- The values `argparse` accepts for the accent option (line 38). -/
def accentChoices : List String := ["gb", "us", "all"]

/-- The function `parse_args` (lines 20-88): applies the defaults
(`accent="all"`, `output_dir=Path("pronunciations")`, `timeout=10`)
and rejects an `--accent` value outside its `choices` list (argparse
exits with a usage error, modelled as `none`). -/
def parse_args (r : RawInvocation) : Option Args :=
  let accent :=
    match r.accentArg with
    | some a => if a ∈ accentChoices then some a else none
    | none => some "all"
  match accent with
  | none => none
  | some a =>
    some
      { command := r.command
        words := r.words
        accent := a
        output_dir := r.outputDirArg.getD "pronunciations"
        timeout := r.timeoutArg.getD 10
        verbose := r.verboseFlag
        no_cache := r.noCacheFlag
        force_download := r.forceFlag }

/-- The `DownloadConfig(...)` construction in `main` (lines 157-162):
built exactly once from the parsed arguments. -/
def mkConfig (args : Args) : DownloadConfig :=
  { output_dir := args.output_dir
    timeout := args.timeout
    use_cache := !args.no_cache
    force_download := args.force_download }

/-- One line of CLI output (stdout prints and log messages are kept
apart; this type models the prints of the cache-info command). -/
inductive OutLine
  | header (s : String)
  | jsonOne (v : String)
  | jsonAll (m : List (String × String))
  | noInfoFor (w : String)
  | noCachedFiles
deriving DecidableEq

/-- The `for word in words` loop of `show_cache_info` (lines 120-126),
together with the surrounding `try`: for each word the per-word dict is
fetched; an empty dict prints `No cache info found`, a non-empty one is
indexed at the word (a missing key raises `KeyError`, which the
`except` clause turns into exit code 1, aborting the loop). -/
def showCacheInfoLoop (infoFor : String → List (String × String)) :
    List String → List OutLine → List OutLine × Nat
  | [], out => (out, 0)
  | w :: ws, out =>
    let info := infoFor w
    if info.isEmpty then
      showCacheInfoLoop infoFor ws (out ++ [OutLine.noInfoFor w])
    else
      match info.lookup w with
      | some v =>
        showCacheInfoLoop infoFor ws (out ++ [OutLine.header w, OutLine.jsonOne v])
      | none => (out, 1)

/-- The function `show_cache_info(downloader, words)` (lines 116-137), abstracted
over the two `get_cache_info` entry points the CLI uses: with a falsy
`words` it prints the whole mapping (or `No cached files found` when
empty) and returns 0; otherwise it walks the words. -/
def show_cache_info (infoFor : String → List (String × String))
    (infoAll : List (String × String)) (words : List String) :
    List OutLine × Nat :=
  if words.isEmpty then
    if infoAll.isEmpty then ([OutLine.noCachedFiles], 0)
    else ([OutLine.header "Cache information", OutLine.jsonAll infoAll], 0)
  else showCacheInfoLoop infoFor words []

/-- The loop of `clear_cache` (lines 142-144): the first raised
exception aborts the loop and yields exit code 1 via the `except`
clause; otherwise 0. -/
def clearCacheLoop (d : Downloader) : List String → Nat
  | [] => 0
  | w :: ws =>
    match d.clear_cache_word w with
    | Except.ok _ => clearCacheLoop d ws
    | Except.error _ => 1

/-- The function `clear_cache(downloader, words)` (lines 139-150). -/
def clear_cache_cmd (d : Downloader) (words : List String) : Nat :=
  if words.isEmpty then
    match d.clear_cache_all with
    | Except.ok _ => 0
    | Except.error _ => 1
  else clearCacheLoop d words

/-- The body of `main` (lines 152-178): builds the config once, constructs a
downloader (line 164, outside the `try`: a constructor failure there is
an uncaught crash, the outer `Except.error`), then dispatches on the
command inside a `try` whose `except` clause logs `Fatal error` and
returns 1.  The result is (exit code, stdout prints, log messages). -/
def mainWith (b : Behaviour) (args : Args) (config : DownloadConfig) :
    Except String (Nat × List OutLine × List String) :=
  match b.constructMain config with
  | Except.error e => Except.error e
  | Except.ok d =>
    match args.command with
    | some Command.download =>
      match process_words b args.words config args.accent with
      | Except.ok (code, logs) => Except.ok (code, [], logs)
      | Except.error e => Except.ok (1, [], ["Fatal error: " ++ e])
    | some Command.cacheInfo =>
      let r := show_cache_info d.get_cache_info_word d.get_cache_info_all args.words
      Except.ok (r.2, r.1, [])
    | some Command.clearCache =>
      Except.ok (clear_cache_cmd d args.words, [], [])
    | none => Except.ok (1, [], ["No command specified"])

/-- The function `main` proper: the single `DownloadConfig` is built from the parsed
arguments once and handed unchanged to the rest of the invocation. -/
def main (b : Behaviour) (args : Args) :
    Except String (Nat × List OutLine × List String) :=
  mainWith b args (mkConfig args)

/-- The string name of an accent, as used in file paths. -/
def AccentType.str : AccentType → String
  | AccentType.gb => "gb"
  | AccentType.us => "us"

/-- Modelled from the spec: the `FetchError` kinds of the Fetcher
contract (section 4.2); the Fetcher source is not part of the
repository snapshot. -/
inductive FetchError
  | timeout
  | notFound
  | networkError
  | serviceError
deriving DecidableEq

/-- Modelled from the spec: a `CacheEntry` record (section 3), keyed by
(word, accent), referencing the stored audio file. -/
structure CacheEntry where
  word : String
  accent : AccentType
  filePath : String
  fetchedAt : Nat
  sourceUrl : String
deriving DecidableEq

/-- Modelled from the spec: the persisted state of the Cache Index
(section 2): the metadata records plus the cache directory, the latter
as an association list from file path to file size in bytes. -/
structure CacheState where
  index : List CacheEntry
  disk : List (String × Nat)

/-- Modelled from the spec: the canonical audio file location for a
(word, accent) key inside the output directory (section 6 scenario:
`<output>/hello/us.mp3`). -/
def entryPath (w : String) (a : AccentType) : String :=
  w ++ "/" ++ a.str ++ ".mp3"

/-- Modelled from the spec: the `CacheEntry` created on a successful
fetch (section 3). -/
def mkEntry (w : String) (a : AccentType) (now : Nat) (url : String) :
    CacheEntry :=
  { word := w, accent := a, filePath := entryPath w a
    fetchedAt := now, sourceUrl := url }

/-- Modelled from the spec: `lookup(word, accent)` of the Cache Index
(section 4.1). -/
def lookupEntry (s : CacheState) (w : String) (a : AccentType) :
    Option CacheEntry :=
  s.index.find? (fun e => decide (e.word = w ∧ e.accent = a))

/-- A file exists on disk and is non-empty. -/
def fileNonEmpty (disk : List (String × Nat)) (p : String) : Prop :=
  ∃ n, (p, n) ∈ disk ∧ 0 < n

/-- Modelled from the spec: `store(entry)` of the Cache Index
(section 4.1): the audio file and the metadata record are written as
one atomic step (write-temp-then-rename), replacing any previous file
and record for the same key. -/
def store (s : CacheState) (e : CacheEntry) (size : Nat) : CacheState :=
  { index := e :: s.index.filter
      (fun o => !(decide (o.word = e.word ∧ o.accent = e.accent)))
    disk := (e.filePath, size) :: s.disk.filter
      (fun q => !(decide (q.1 = e.filePath))) }

/-- Modelled from the spec: `clear(word)` of the Cache Index
(section 4.1): removes the word's metadata records together with the
files they reference. -/
def clearWord (s : CacheState) (w : String) : CacheState :=
  { index := s.index.filter (fun e => !(decide (e.word = w)))
    disk := s.disk.filter (fun q =>
      (s.index.filter (fun e => !(decide (e.word = w)))).any
        (fun e => decide (e.filePath = q.1))) }

/-- The invariant of section 3: every metadata record references its
canonical file path and that file exists non-empty; every file on disk
is referenced by some record and is non-empty. -/
def cacheInvariant (s : CacheState) : Prop :=
  (∀ e ∈ s.index,
      e.filePath = entryPath e.word e.accent ∧ fileNonEmpty s.disk e.filePath) ∧
  (∀ q ∈ s.disk, (∃ e ∈ s.index, e.filePath = q.1) ∧ 0 < q.2)

/-- Modelled from the spec: the fetch-then-store half of
`Orchestrator.resolve` (section 4.3): call the Fetcher; on success
store via the Cache Index and return the new path, on failure return
the error, the state untouched. -/
def fetchStore (fetch : String → AccentType → Except FetchError (List Nat))
    (now : Nat) (url : String) (s : CacheState) (w : String) (a : AccentType) :
    Except FetchError String × CacheState :=
  match fetch w a with
  | Except.ok bytes =>
    let e := mkEntry w a now url
    (Except.ok e.filePath, store s e bytes.length)
  | Except.error err => (Except.error err, s)

/-- Modelled from the spec: `Orchestrator.resolve(word, accent, config)`
(section 4.3): if `useCache` and not `forceDownload` and the Cache
Index has a hit, return the cached path without network access;
otherwise fetch and store. -/
def resolve (fetch : String → AccentType → Except FetchError (List Nat))
    (cfg : DownloadConfig) (now : Nat) (url : String)
    (s : CacheState) (w : String) (a : AccentType) :
    Except FetchError String × CacheState :=
  if cfg.use_cache && !cfg.force_download then
    match lookupEntry s w a with
    | some e => (Except.ok e.filePath, s)
    | none => fetchStore fetch now url s w a
  else fetchStore fetch now url s w a

/-- The two supported accents (section 4.3, glossary). -/
def supportedAccents : List AccentType := [AccentType.gb, AccentType.us]

/-- Modelled from the spec: `resolveAllAccents(word, config)`
(section 4.3): calls `resolve` for each supported accent independently
and returns the list of successes; a per-accent failure is dropped, not
raised. -/
def resolveAllAccents (resolveOne : AccentType → Except FetchError String) :
    List String :=
  supportedAccents.filterMap (fun a => (resolveOne a).toOption)

/-- A rendering of a word's cache entries as one JSON-ish string, for
the cache-info output. -/
def renderEntries (es : List CacheEntry) : String :=
  String.intercalate ", " (es.map (fun e => e.filePath))

/-- Modelled from the spec: `get_cache_info(word)` is
`listAll(word)` (section 4.1): the full mapping restricted to the one
word, so a word with no entries yields the empty mapping. -/
def getCacheInfoFor (s : CacheState) (w : String) :
    List (String × String) :=
  let es := s.index.filter (fun e => decide (e.word = w))
  if es.isEmpty then [] else [(w, renderEntries es)]

/-- Modelled from the spec: `get_cache_info()` with no word is
`listAll()` (section 4.1): one mapping entry per cached word. -/
def getCacheInfoAll (s : CacheState) : List (String × String) :=
  (s.index.map (fun e => e.word)).dedup.map (fun w => (w, renderEntries
    (s.index.filter (fun e => decide (e.word = w)))))

/-- The output lines `show_cache_info` produces for one queried word
when the downloader serves `getCacheInfoFor` (mirrors one iteration of
`showCacheInfoLoop`). -/
def wordOut (s : CacheState) (w : String) : List OutLine :=
  let info := getCacheInfoFor s w
  if info.isEmpty then [OutLine.noInfoFor w]
  else
    match info.lookup w with
    | some v => [OutLine.header w, OutLine.jsonOne v]
    | none => []

/-- A raw command line naming only the download command and a word. -/
def rawDefaults : RawInvocation :=
  { command := some Command.download, words := ["hello"],
    accentArg := none, outputDirArg := none, timeoutArg := none,
    verboseFlag := false, noCacheFlag := false, forceFlag := false }

/-- The namespace `rawDefaults` parses to. -/
def argsDefaults : Args :=
  { command := some Command.download, words := ["hello"],
    accent := "all", output_dir := "pronunciations", timeout := 10,
    verbose := false, no_cache := false, force_download := false }

/-- A raw command line selecting the British accent. -/
def rawGb : RawInvocation :=
  { command := some Command.download, words := ["hello"],
    accentArg := some "gb", outputDirArg := none, timeoutArg := none,
    verboseFlag := false, noCacheFlag := false, forceFlag := false }

/-- The namespace `rawGb` parses to. -/
def argsGb : Args :=
  { command := some Command.download, words := ["hello"],
    accent := "gb", output_dir := "pronunciations", timeout := 10,
    verbose := false, no_cache := false, force_download := false }

/-- A sample downloader: the word hello resolves, every other word
raises `DownloadError`. -/
def sampleDownloader : Downloader :=
  { download_all_accents := fun w =>
      if w = "hello" then Except.ok ["hello/gb.mp3", "hello/us.mp3"]
      else Except.error (PyExc.downloadError "no pronunciation")
    download_pronunciation := fun w a =>
      if w = "hello" then Except.ok (some (entryPath w a)) else Except.ok none
    get_cache_info_word := fun _ => []
    get_cache_info_all := []
    clear_cache_word := fun _ => Except.ok ()
    clear_cache_all := Except.ok () }

/-- The scenario resolver of spec section 8: the US fetch times out,
the GB fetch succeeds. -/
def usTimeoutResolver : AccentType → Except FetchError String
  | AccentType.gb => Except.ok "cat/gb.mp3"
  | AccentType.us => Except.error FetchError.timeout

/-- A behaviour whose downloader constructor succeeds in `main` but
raises when `process_words` constructs its own downloader. -/
def flakyBehaviour : Behaviour :=
  { constructMain := fun _ => Except.ok sampleDownloader
    constructProcess := fun _ => Except.error "output directory vanished" }

/-- Arguments for a download of the word hello with every option
defaulted. -/
def argsDownloadHello : Args :=
  { command := some Command.download, words := ["hello"], accent := "all",
    output_dir := "pronunciations", timeout := 10, verbose := false,
    no_cache := false, force_download := false }

/-- The output lines `show_cache_info` produces for a list of queried
words when the downloader serves `getCacheInfoFor`. -/
def wordsOut (s : CacheState) : List String → List OutLine
  | [] => []
  | w :: ws => wordOut s w ++ wordsOut s ws

/-- A cache entry for the word cat in the British accent. -/
def sampleEntry : CacheEntry :=
  { word := "cat", accent := AccentType.gb
    filePath := entryPath "cat" AccentType.gb
    fetchedAt := 5, sourceUrl := "https://dict.example/cat" }

/-- A cache holding exactly `sampleEntry` and its three-byte file. -/
def sampleCache : CacheState :=
  { index := [sampleEntry], disk := [(entryPath "cat" AccentType.gb, 3)] }

/-- A fetcher that always returns the seven bytes of a stub MP3. -/
def stubFetch : String → AccentType → Except FetchError (List Nat) :=
  fun _ _ => Except.ok [73, 68, 51, 4, 0, 0, 0]

/-- The default configuration: cache on, no forced download. -/
def cfgDefault : DownloadConfig :=
  { output_dir := "pronunciations", timeout := 10
    use_cache := true, force_download := false }

theorem wordStep_fst (d : Downloader) (accent word : String) :
    (wordStep d accent word).1 = producedFile d accent word := by
  unfold wordStep producedFile
  cases h : downloadWord d accent word with
  | ok paths => cases hp : paths.isEmpty <;> simp [hp]
  | error e => cases e <;> simp

theorem wordStep_logged (d : Downloader) (accent word : String)
    (h : (wordStep d accent word).1 = false) :
    (wordStep d accent word).2 ≠ [] := by
  cases hd : downloadWord d accent word with
  | ok paths =>
    simp only [wordStep, hd] at h ⊢
    cases hp : paths.isEmpty <;> simp [hp] at h ⊢
  | error e => cases e <;> simp [wordStep, hd]

theorem foldl_and_eq (f : String → Bool) (ws : List String) (b : Bool) :
    ws.foldl (fun s w => s && f w) b = (b && ws.all f) := by
  induction ws generalizing b with
  | nil => simp
  | cons w ws ih => simp [List.all_cons, ih, Bool.and_assoc]

theorem run_process_words_all (d : Downloader) (words : List String)
    (accent : String) :
    run_process_words d words accent =
      if words.all (fun w => producedFile d accent w) then 0 else 1 := by
  unfold run_process_words
  rw [foldl_and_eq]
  simp only [Bool.true_and, wordStep_fst]

/-- C1: for every invocation of the download command, the exit code of
`process_words` is 0 exactly when every requested word produced at
least one pronunciation file, and 1 exactly when at least one word
produced no file (the downloader returned nothing, or raised). -/
theorem c1_download_exit_code (d : Downloader) (words : List String)
    (accent : String) :
    (run_process_words d words accent = 0 ↔
        ∀ w ∈ words, producedFile d accent w = true) ∧
    (run_process_words d words accent = 1 ↔
        ∃ w ∈ words, producedFile d accent w = false) := by
  rw [run_process_words_all]
  cases h : words.all (fun w => producedFile d accent w) with
  | false =>
    rw [List.all_eq_false] at h
    obtain ⟨x, hx, hpx⟩ := h
    have hx' : producedFile d accent x = false := by
      cases hv : producedFile d accent x
      · rfl
      · exact absurd hv hpx
    constructor
    · constructor
      · intro h0; exact absurd h0 (by decide)
      · intro hall; rw [hall x hx] at hx'; exact absurd hx' (by decide)
    · constructor
      · intro _; exact ⟨x, hx, hx'⟩
      · intro _; decide
  | true =>
    rw [List.all_eq_true] at h
    constructor
    · constructor
      · intro _; exact h
      · intro _; decide
    · constructor
      · intro h1; exact absurd h1 (by decide)
      · rintro ⟨x, hx, hpx⟩
        rw [h x hx] at hpx
        exact absurd hpx (by decide)

/-- C5: the config handed on from `main` has `use_cache` true exactly
when `--no-cache` is absent and `force_download` true exactly when
`--force-download` is given; it is built once from the parsed
arguments, and the whole invocation runs on that one value. -/
theorem c5_config_construction (b : Behaviour) (args : Args) :
    ((mkConfig args).use_cache = true ↔ args.no_cache = false) ∧
    ((mkConfig args).force_download = true ↔ args.force_download = true) ∧
    (mkConfig args).output_dir = args.output_dir ∧
    (mkConfig args).timeout = args.timeout ∧
    main b args = mainWith b args (mkConfig args) := by
  refine ⟨?_, Iff.rfl, rfl, rfl, rfl⟩
  unfold mkConfig
  cases args.no_cache <;> simp

/-- C6: `cache-info` with no words asks for the whole cache mapping and
prints it as JSON, printing `No cached files found` when the cache is
empty, and returns exit code 0 either way. -/
theorem c6_cache_info_no_words (infoFor : String → List (String × String))
    (infoAll : List (String × String)) :
    show_cache_info infoFor infoAll [] =
      (if infoAll.isEmpty then [OutLine.noCachedFiles]
       else [OutLine.header "Cache information", OutLine.jsonAll infoAll], 0) ∧
    (show_cache_info infoFor infoAll []).2 = 0 := by
  unfold show_cache_info
  cases h : infoAll.isEmpty <;> simp [h]

/-- C8: omitting the output-dir option parses to the path
`pronunciations`, and omitting the timeout option parses to 10
seconds. -/
theorem c8_parser_defaults (r : RawInvocation) (args : Args)
    (h : parse_args r = some args) :
    (r.outputDirArg = none → args.output_dir = "pronunciations") ∧
    (r.timeoutArg = none → args.timeout = 10) := by
  unfold parse_args at h
  cases hacc : r.accentArg with
  | none =>
    rw [hacc] at h
    simp only [Option.some.injEq] at h
    subst h
    constructor
    · intro hod; simp [hod]
    · intro htm; simp [htm]
  | some a =>
    rw [hacc] at h
    by_cases hc : a ∈ accentChoices
    · simp only [if_pos hc, Option.some.injEq] at h
      subst h
      constructor
      · intro hod; simp [hod]
      · intro htm; simp [htm]
    · simp only [if_neg hc] at h
      exact absurd h (by simp)

theorem c8_parser_defaults_witness :
    parse_args rawDefaults = some argsDefaults ∧
    (rawDefaults.outputDirArg = none →
      argsDefaults.output_dir = "pronunciations") ∧
    (rawDefaults.timeoutArg = none → argsDefaults.timeout = 10) :=
  ⟨rfl, c8_parser_defaults rawDefaults argsDefaults rfl⟩

/-- C10: every parsed invocation carries an accent within the parser
choices gb, us, all; whenever the accent is not "all" (the only case
reaching the `AccentType(accent)` call in `process_words`), the
conversion succeeds. -/
theorem c10_accent_conversion_safe (r : RawInvocation) (args : Args)
    (h : parse_args r = some args) :
    args.accent ∈ accentChoices ∧
    (args.accent ≠ "all" →
      (AccentType.ofString args.accent).isSome = true) := by
  unfold parse_args at h
  have hmem : args.accent ∈ accentChoices := by
    cases hacc : r.accentArg with
    | none =>
      rw [hacc] at h
      simp only [Option.some.injEq] at h
      subst h
      simp [accentChoices]
    | some a =>
      rw [hacc] at h
      by_cases hc : a ∈ accentChoices
      · simp only [if_pos hc, Option.some.injEq] at h
        subst h
        exact hc
      · simp only [if_neg hc] at h
        exact absurd h (by simp)
  refine ⟨hmem, ?_⟩
  intro hne
  have hcases : args.accent = "gb" ∨ args.accent = "us" ∨ args.accent = "all" := by
    simpa [accentChoices] using hmem
  rcases hcases with hg | hu | ha
  · rw [hg]; rfl
  · rw [hu]; rfl
  · exact absurd ha hne

theorem c10_accent_conversion_safe_witness :
    parse_args rawGb = some argsGb ∧
    argsGb.accent ∈ accentChoices ∧
    (argsGb.accent ≠ "all" →
      (AccentType.ofString argsGb.accent).isSome = true) :=
  ⟨by simp [parse_args, rawGb, accentChoices, argsGb],
    c10_accent_conversion_safe rawGb argsGb
      (by simp [parse_args, rawGb, accentChoices, argsGb])⟩

/-- C2: a failure while processing one word of a download invocation is
caught at the per-word boundary and logged, and every word of the list,
the ones after the failing word included, is still processed; the exit
code then reports the failure. -/
theorem c2_per_word_isolation (d : Downloader) (accent : String)
    (ws1 ws2 : List String) (w : String)
    (hfail : (wordStep d accent w).1 = false) :
    (wordTrace d accent (ws1 ++ w :: ws2)).map Prod.fst = ws1 ++ w :: ws2 ∧
    (w, wordStep d accent w) ∈ wordTrace d accent (ws1 ++ w :: ws2) ∧
    (wordStep d accent w).2 ≠ [] ∧
    run_process_words d (ws1 ++ w :: ws2) accent = 1 := by
  refine ⟨?_, ?_, wordStep_logged d accent w hfail, ?_⟩
  · have hid : ∀ l : List String,
        l.map (Prod.fst ∘ fun x => (x, wordStep d accent x)) = l := by
      intro l
      induction l with
      | nil => rfl
      | cons x xs ih => simp only [List.map_cons, Function.comp_apply, ih]
    simp [wordTrace, hid]
  · exact List.mem_map_of_mem _ (by simp)
  · rw [run_process_words_all]
    have hall : ((ws1 ++ w :: ws2).all fun x => producedFile d accent x) = false := by
      rw [wordStep_fst] at hfail
      simp [List.all_append, List.all_cons, hfail]
    rw [hall]
    decide

theorem c2_per_word_isolation_witness :
    (wordStep sampleDownloader "all" "xyz").1 = false ∧
    ((wordTrace sampleDownloader "all" (["hello"] ++ "xyz" :: ["hello"])).map
        Prod.fst = ["hello"] ++ "xyz" :: ["hello"] ∧
      ("xyz", wordStep sampleDownloader "all" "xyz") ∈
        wordTrace sampleDownloader "all" (["hello"] ++ "xyz" :: ["hello"]) ∧
      (wordStep sampleDownloader "all" "xyz").2 ≠ [] ∧
      run_process_words sampleDownloader (["hello"] ++ "xyz" :: ["hello"]) "all" = 1) :=
  ⟨by decide, c2_per_word_isolation sampleDownloader "all" ["hello"] ["hello"]
      "xyz" (by decide)⟩

/-- C3: for a word downloaded with accent "all", partial failure across
accents is not an error: when `download_all_accents` returns a list of
paths, the word succeeds exactly when the list is non-empty and no
exception propagates; and the spec-modelled `resolveAllAccents` keeps
the successful accents of a word even when another accent failed, so
one success makes its result non-empty. -/
theorem c3_all_accents_partial_failure (d : Downloader) (w : String)
    (l : List String) (h : d.download_all_accents w = Except.ok l) :
    ((wordStep d "all" w).1 = true ↔ l ≠ []) ∧
    (∀ resolveOne : AccentType → Except FetchError String, ∀ a p,
        resolveOne a = Except.ok p → p ∈ resolveAllAccents resolveOne) ∧
    (∀ resolveOne : AccentType → Except FetchError String, ∀ a p,
        resolveOne a = Except.ok p → resolveAllAccents resolveOne ≠ []) := by
  have hmemAll : ∀ resolveOne : AccentType → Except FetchError String,
      ∀ a p, resolveOne a = Except.ok p → p ∈ resolveAllAccents resolveOne := by
    intro resolveOne a p hr
    unfold resolveAllAccents
    refine List.mem_filterMap.mpr ⟨a, ?_, by rw [hr]; rfl⟩
    cases a <;> simp [supportedAccents]
  refine ⟨?_, hmemAll, fun resolveOne a p hr =>
    List.ne_nil_of_mem (hmemAll resolveOne a p hr)⟩
  have hdl : downloadWord d "all" w = Except.ok l := by
    unfold downloadWord
    rw [if_pos rfl]
    exact h
  unfold wordStep
  rw [hdl]
  cases hl : l.isEmpty with
  | false =>
    have : l ≠ [] := by
      intro hnil; rw [hnil] at hl; exact absurd hl (by decide)
    simp [this]
  | true =>
    have : l = [] := by
      cases l with
      | nil => rfl
      | cons x xs => exact absurd hl (by simp)
    simp [this]

theorem c3_all_accents_partial_failure_witness :
    sampleDownloader.download_all_accents "hello" =
      Except.ok ["hello/gb.mp3", "hello/us.mp3"] ∧
    (((wordStep sampleDownloader "all" "hello").1 = true ↔
        (["hello/gb.mp3", "hello/us.mp3"] : List String) ≠ []) ∧
      (∀ resolveOne : AccentType → Except FetchError String, ∀ a p,
          resolveOne a = Except.ok p → p ∈ resolveAllAccents resolveOne) ∧
      (∀ resolveOne : AccentType → Except FetchError String, ∀ a p,
          resolveOne a = Except.ok p → resolveAllAccents resolveOne ≠ [])) ∧
    resolveAllAccents usTimeoutResolver = ["cat/gb.mp3"] :=
  ⟨rfl, c3_all_accents_partial_failure sampleDownloader "hello" _ rfl,
    by decide⟩

/-- C7: an exception escaping a command handler inside the dispatch of
`main` is caught by the top-level handler, logged as a fatal error, and
turned into exit code 1 instead of an uncaught crash. -/
theorem c7_fatal_error_handling (b : Behaviour) (args : Args)
    (d : Downloader) (e : String)
    (hmain : b.constructMain (mkConfig args) = Except.ok d)
    (hcmd : args.command = some Command.download)
    (hexc : process_words b args.words (mkConfig args) args.accent =
      Except.error e) :
    main b args = Except.ok (1, [], ["Fatal error: " ++ e]) := by
  unfold main mainWith
  rw [hmain, hcmd, hexc]

theorem c7_fatal_error_handling_witness :
    flakyBehaviour.constructMain (mkConfig argsDownloadHello) =
      Except.ok sampleDownloader ∧
    argsDownloadHello.command = some Command.download ∧
    process_words flakyBehaviour argsDownloadHello.words
        (mkConfig argsDownloadHello) argsDownloadHello.accent =
      Except.error "output directory vanished" ∧
    main flakyBehaviour argsDownloadHello =
      Except.ok (1, [], ["Fatal error: " ++ "output directory vanished"]) :=
  ⟨rfl, rfl, rfl,
    c7_fatal_error_handling flakyBehaviour argsDownloadHello sampleDownloader
      "output directory vanished" rfl rfl rfl⟩

theorem wordsOut_append (s : CacheState) (l1 l2 : List String) :
    wordsOut s (l1 ++ l2) = wordsOut s l1 ++ wordsOut s l2 := by
  induction l1 with
  | nil => rfl
  | cons x xs ih => simp [wordsOut, ih]

theorem getCacheInfoFor_lookup (s : CacheState) (w : String)
    (h : (getCacheInfoFor s w).isEmpty = false) :
    (getCacheInfoFor s w).lookup w =
      some (renderEntries (s.index.filter (fun e => decide (e.word = w)))) := by
  unfold getCacheInfoFor at h ⊢
  cases he : (s.index.filter (fun e => decide (e.word = w))).isEmpty with
  | true => simp [he] at h
  | false => simp [he]

theorem showCacheInfoLoop_run (s : CacheState) (ws : List String)
    (out : List OutLine) :
    showCacheInfoLoop (getCacheInfoFor s) ws out = (out ++ wordsOut s ws, 0) := by
  induction ws generalizing out with
  | nil => simp [showCacheInfoLoop, wordsOut]
  | cons w ws ih =>
    cases he : (getCacheInfoFor s w).isEmpty with
    | true => simp [showCacheInfoLoop, he, ih, wordsOut, wordOut]
    | false =>
      simp [showCacheInfoLoop, he, getCacheInfoFor_lookup s w he, ih,
        wordsOut, wordOut]

/-- C9: a queried word with no cache entry is not a failure for the
cache-info command: its line is `No cache info found`, the remaining
words are still processed (the output is the concatenation of every
word's lines, the ones after the absent word included), and the exit
code is 0. -/
theorem c9_missing_word_not_failure (s : CacheState) (ws1 ws2 : List String)
    (w : String) (h : ∀ e ∈ s.index, e.word ≠ w) :
    show_cache_info (getCacheInfoFor s) (getCacheInfoAll s) (ws1 ++ w :: ws2) =
      (wordsOut s (ws1 ++ w :: ws2), 0) ∧
    wordOut s w = [OutLine.noInfoFor w] ∧
    wordsOut s (ws1 ++ w :: ws2) =
      wordsOut s ws1 ++ [OutLine.noInfoFor w] ++ wordsOut s ws2 := by
  have hfe : s.index.filter (fun e => decide (e.word = w)) = [] :=
    List.filter_eq_nil_iff.mpr (fun e he => by simp [h e he])
  have hout : wordOut s w = [OutLine.noInfoFor w] := by
    simp [wordOut, getCacheInfoFor, hfe]
  refine ⟨?_, hout, ?_⟩
  · have hne : (ws1 ++ w :: ws2).isEmpty = false := by cases ws1 <;> simp
    simp [show_cache_info, hne, showCacheInfoLoop_run]
  · rw [wordsOut_append]
    simp [wordsOut, hout, List.append_assoc]

theorem c9_missing_word_not_failure_witness :
    (∀ e ∈ sampleCache.index, e.word ≠ "dog") ∧
    (show_cache_info (getCacheInfoFor sampleCache) (getCacheInfoAll sampleCache)
        (["cat"] ++ "dog" :: ["cat"]) =
      (wordsOut sampleCache (["cat"] ++ "dog" :: ["cat"]), 0) ∧
    wordOut sampleCache "dog" = [OutLine.noInfoFor "dog"] ∧
    wordsOut sampleCache (["cat"] ++ "dog" :: ["cat"]) =
      wordsOut sampleCache ["cat"] ++ [OutLine.noInfoFor "dog"] ++
        wordsOut sampleCache ["cat"]) :=
  ⟨by decide,
    c9_missing_word_not_failure sampleCache ["cat"] ["cat"] "dog" (by decide)⟩

theorem store_cacheInvariant (s : CacheState) (e : CacheEntry) (size : Nat)
    (hpath : e.filePath = entryPath e.word e.accent)
    (hsize : 0 < size) (hinv : cacheInvariant s) :
    cacheInvariant (store s e size) := by
  obtain ⟨hfwd, hbwd⟩ := hinv
  constructor
  · intro o ho
    simp only [store] at ho ⊢
    rcases List.mem_cons.mp ho with rfl | ho'
    · exact ⟨hpath, size, List.mem_cons_self _ _, hsize⟩
    · have hom := (List.mem_filter.mp ho').1
      obtain ⟨hop, n, hn, hpos⟩ := hfwd o hom
      refine ⟨hop, ?_⟩
      by_cases hp : o.filePath = e.filePath
      · exact ⟨size, by rw [hp]; exact List.mem_cons_self _ _, hsize⟩
      · exact ⟨n, List.mem_cons_of_mem _
          (List.mem_filter.mpr ⟨hn, by simp [hp]⟩), hpos⟩
  · intro q hq
    simp only [store] at hq ⊢
    rcases List.mem_cons.mp hq with rfl | hq'
    · exact ⟨⟨e, List.mem_cons_self _ _, rfl⟩, hsize⟩
    · have hqd := (List.mem_filter.mp hq').1
      have hqp := (List.mem_filter.mp hq').2
      obtain ⟨⟨o, ho, hofp⟩, hpos⟩ := hbwd q hqd
      have hone : ¬(o.word = e.word ∧ o.accent = e.accent) := by
        rintro ⟨hw, ha⟩
        have hoc := (hfwd o ho).1
        have hqe : q.1 = e.filePath := by
          rw [← hofp, hoc, hw, ha, ← hpath]
        rw [hqe] at hqp
        simp at hqp
      exact ⟨⟨o, List.mem_cons_of_mem _
        (List.mem_filter.mpr ⟨ho, by simp [hone]⟩), hofp⟩, hpos⟩

theorem clearWord_cacheInvariant (s : CacheState) (w : String)
    (hinv : cacheInvariant s) : cacheInvariant (clearWord s w) := by
  obtain ⟨hfwd, hbwd⟩ := hinv
  constructor
  · intro e he
    simp only [clearWord] at he ⊢
    have hmem := (List.mem_filter.mp he).1
    obtain ⟨hep, n, hn, hpos⟩ := hfwd e hmem
    refine ⟨hep, n, List.mem_filter.mpr ⟨hn, ?_⟩, hpos⟩
    exact List.any_eq_true.mpr ⟨e, he, by simp⟩
  · intro q hq
    simp only [clearWord] at hq ⊢
    have hqd := (List.mem_filter.mp hq).1
    have hqa := (List.mem_filter.mp hq).2
    obtain ⟨o, ho, hofp⟩ := List.any_eq_true.mp hqa
    exact ⟨⟨o, ho, by simpa using hofp⟩, (hbwd q hqd).2⟩

theorem fetchStore_ok
    (fetch : String → AccentType → Except FetchError (List Nat))
    (now : Nat) (url : String) (s : CacheState) (w : String) (a : AccentType)
    (hinv : cacheInvariant s)
    (hbytes : ∀ w' a' b, fetch w' a' = Except.ok b → b ≠ []) :
    cacheInvariant (fetchStore fetch now url s w a).2 ∧
    (∀ p, (fetchStore fetch now url s w a).1 = Except.ok p →
      ∃ e, lookupEntry (fetchStore fetch now url s w a).2 w a = some e ∧
        e.filePath = p ∧
        fileNonEmpty (fetchStore fetch now url s w a).2.disk e.filePath) := by
  unfold fetchStore
  cases hf : fetch w a with
  | error err =>
    refine ⟨hinv, ?_⟩
    intro p hp
    exact absurd hp (by simp)
  | ok bytes =>
    have hne : bytes ≠ [] := hbytes w a bytes hf
    have hsz : 0 < bytes.length := List.length_pos.mpr hne
    constructor
    · exact store_cacheInvariant s (mkEntry w a now url) bytes.length rfl
        hsz hinv
    · intro p hp
      have hpe : (mkEntry w a now url).filePath = p := by
        simpa using hp
    -- find? hits the freshly stored entry at the head of the index
      refine ⟨mkEntry w a now url, ?_, hpe, ?_⟩
      · unfold lookupEntry store
        apply List.find?_cons_of_pos
        simp [mkEntry]
      · exact ⟨bytes.length, List.mem_cons_self _ _, hsz⟩

/-- C4: a cache entry exists for a (word, accent) key exactly when its
referenced audio file exists on disk non-empty — `resolve` (in either
outcome) and `clear` preserve the invariant, so no partial failure
leaves orphaned metadata or an orphaned file — and after a successful
resolve, lookup returns an entry whose file exists and is non-empty. -/
theorem c4_cache_entry_file_invariant
    (fetch : String → AccentType → Except FetchError (List Nat))
    (cfg : DownloadConfig) (now : Nat) (url : String)
    (s : CacheState) (w w2 : String) (a : AccentType)
    (hinv : cacheInvariant s)
    (hbytes : ∀ w' a' b, fetch w' a' = Except.ok b → b ≠ []) :
    cacheInvariant (resolve fetch cfg now url s w a).2 ∧
    cacheInvariant (clearWord s w2) ∧
    (∀ p, (resolve fetch cfg now url s w a).1 = Except.ok p →
      ∃ e, lookupEntry (resolve fetch cfg now url s w a).2 w a = some e ∧
        e.filePath = p ∧
        fileNonEmpty (resolve fetch cfg now url s w a).2.disk e.filePath) := by
  have hres : cacheInvariant (resolve fetch cfg now url s w a).2 ∧
      (∀ p, (resolve fetch cfg now url s w a).1 = Except.ok p →
        ∃ e, lookupEntry (resolve fetch cfg now url s w a).2 w a = some e ∧
          e.filePath = p ∧
          fileNonEmpty (resolve fetch cfg now url s w a).2.disk e.filePath) := by
    unfold resolve
    cases hcc : (cfg.use_cache && !cfg.force_download) with
    | false =>
      simp only [Bool.false_eq_true, if_false]
      exact fetchStore_ok fetch now url s w a hinv hbytes
    | true =>
      simp only [if_pos rfl]
      cases hle : lookupEntry s w a with
      | none => exact fetchStore_ok fetch now url s w a hinv hbytes
      | some e =>
        refine ⟨hinv, ?_⟩
        intro p hp
        have hpe : e.filePath = p := by simpa using hp
        have hmem : e ∈ s.index := List.mem_of_find?_eq_some hle
        exact ⟨e, hle, hpe, (hinv.1 e hmem).2⟩
  exact ⟨hres.1, clearWord_cacheInvariant s w2 hinv, hres.2⟩

theorem c4_cache_entry_file_invariant_witness :
    cacheInvariant { index := [], disk := [] } ∧
    (∀ w' a' b, stubFetch w' a' = Except.ok b → b ≠ []) ∧
    (cacheInvariant
        (resolve stubFetch cfgDefault 0 "https://dict.example/hello"
          { index := [], disk := [] } "hello" AccentType.us).2 ∧
      cacheInvariant (clearWord { index := [], disk := [] } "hello") ∧
      (∀ p,
        (resolve stubFetch cfgDefault 0 "https://dict.example/hello"
            { index := [], disk := [] } "hello" AccentType.us).1 =
          Except.ok p →
        ∃ e,
          lookupEntry
              (resolve stubFetch cfgDefault 0 "https://dict.example/hello"
                { index := [], disk := [] } "hello" AccentType.us).2
              "hello" AccentType.us = some e ∧
          e.filePath = p ∧
          fileNonEmpty
            (resolve stubFetch cfgDefault 0 "https://dict.example/hello"
              { index := [], disk := [] } "hello" AccentType.us).2.disk
            e.filePath)) := by
  have hinv : cacheInvariant { index := [], disk := [] } := by
    constructor
    · intro e he; cases he
    · intro q hq; cases hq
  have hbytes : ∀ w' a' b, stubFetch w' a' = Except.ok b → b ≠ [] := by
    intro w' a' b hb
    have : b = [73, 68, 51, 4, 0, 0, 0] := by
      simpa [stubFetch] using hb.symm
    rw [this]
    intro hnil
    cases hnil
  exact ⟨hinv, hbytes,
    c4_cache_entry_file_invariant stubFetch cfgDefault 0
      "https://dict.example/hello" { index := [], disk := [] } "hello"
      "hello" AccentType.us hinv hbytes⟩

end GooglePronouncer
